import Mathlib

/-!
Verification development for the ITS kiosk application (src/app.py).

The application's operations are shallowly embedded as Lean functions:
numeric embedding vectors become lists of rationals, the face-matching
policy of the recognition loop becomes a pure function, the JSON/pickle
stores become explicit values threaded through the operations, and the
fallible file loads become total functions over an explicit
absent / corrupt / decoded input.
-/

namespace ITS

/-- An embedding vector produced by the face-embedding black box.  The
real-valued entries are modelled as rationals. -/
abbrev Vec := List ℚ

/-- The distance to the query of each stored encoding, mirroring
np.argmin over face_recognition.face_distance: index of the first
occurrence of the minimum of a list (0 on the empty list). -/
def argminIdx : List ℚ → Nat
  | [] => 0
  | [_] => 0
  | x :: y :: ys =>
    if x ≤ (y :: ys).getD (argminIdx (y :: ys)) 0 then 0 else argminIdx (y :: ys) + 1

/-- The configured match tolerance (0.6 in app.py). -/
def TOLERANCE : ℚ := 3 / 5

/-- The number of capture slots of an enrollment session
(NUM_REGISTRATION_IMAGES = 5 in app.py). -/
def NUM_REGISTRATION_IMAGES : Nat := 5

/-- face_recognition.compare_faces: one boolean per stored encoding,
true when its distance to the query is within the tolerance.  The
distance function of the embedding library is a parameter. -/
def compare_faces (dist : Vec → Vec → ℚ) (encs : List Vec) (q : Vec) (tol : ℚ) : List Bool :=
  encs.map (fun e => decide (dist e q ≤ tol))

/-- face_recognition.face_distance: the list of distances from the query
to each stored encoding. -/
def face_distance (dist : Vec → Vec → ℚ) (encs : List Vec) (q : Vec) : List ℚ :=
  encs.map (fun e => dist e q)

/-- The per-frame match of app.py lines 998-1008: name starts as
"Unknown"; when the store is non-empty and some comparison succeeds, the
name at the argmin of the distances is taken.  The Python list indexing
KNOWN_NAMES[match_index] is modelled totally with the sentinel as
default; that the index is in bounds is proved separately from the
store invariant. -/
def matchFace (dist : Vec → Vec → ℚ) (encs : List Vec) (names : List String)
    (tol : ℚ) (q : Vec) : String :=
  if encs.isEmpty then "Unknown"
  else if true ∈ compare_faces dist encs q tol then
    names.getD (argminIdx (face_distance dist encs q)) "Unknown"
  else "Unknown"

/-- A concrete distance function used to instantiate the distance
parameter in witnesses: sum of squared coordinate differences. -/
def sqDist (a b : Vec) : ℚ :=
  (List.zipWith (fun x y => (x - y) * (x - y)) a b).sum

/-- A stored patient record: the free-form attribute record of
PATIENT_RECORDS values. -/
structure PatientDetails where
  age : String
  gender : String
  allergies : String
  history : String
  last_visit : String
  deriving DecidableEq

/-- PATIENT_RECORDS / DOCTOR_RECORDS: a JSON object modelled as an
association list from identifier to record. -/
abbrev PatientMap := List (String × PatientDetails)

/-- An appointment record as stored in APPOINTMENTS. -/
structure Appointment where
  name : String
  date : String
  time : String
  reason : String
  doctor : String
  deriving DecidableEq

/-- A doctor record as stored in DOCTOR_RECORDS. -/
structure DoctorRecord where
  specialization : String
  contact : String
  days : List String
  start_time : String
  end_time : String
  deriving DecidableEq

/-- DOCTOR_RECORDS as an association list. -/
abbrev DoctorMap := List (String × DoctorRecord)

/-- The sort key comparison of APPOINTMENTS.sort(key=lambda x: (x['date'],
x['time'])): lexicographic on the (date, time) string pair. -/
def apptLE (a b : Appointment) : Bool :=
  decide (a.date < b.date) || (decide (a.date = b.date) && decide (a.time ≤ b.time))

/-- Sorting the appointment list by (date, time), as done on every load
and on every booking.  Python's list.sort is a stable sort; so is
List.mergeSort. -/
def sortPending (l : List Appointment) : List Appointment :=
  l.mergeSort apptLE

/-- add_appointment: append the new record and re-sort. -/
def add_appointment (l : List Appointment) (a : Appointment) : List Appointment :=
  sortPending (l ++ [a])

/-- cancel_appointment: the operator enters a 1-based id (a Python int,
hence possibly non-positive); ids out of [1, length] are rejected
without mutation, otherwise after confirmation the record at the
corresponding 0-based position is deleted. -/
def cancel_appointment (l : List Appointment) (apptId : Int) (confirm : Bool) :
    List Appointment :=
  let idx := apptId - 1
  if idx < 0 ∨ (l.length : Int) ≤ idx then l
  else if confirm then l.eraseIdx idx.toNat else l

/-- The severity levels of cyber_log. -/
inductive LogLevel
  | info
  | warning
  | critical
  | success
  deriving DecidableEq

/-- load_patient_records: the backing file is absent (none), present but
undecodable (error), or decodes to a mapping (ok).  Absence creates an
empty file with a warning; a decode failure degrades to the empty
mapping with a CRITICAL log; the function is total, so no error
propagates to the caller. -/
def load_patient_records : Option (Except Unit PatientMap) → PatientMap × LogLevel
  | none => ([], .warning)
  | some (.error _) => ([], .critical)
  | some (.ok m) => (m, .info)

/-- load_appointments: like load_patient_records, and additionally sorts
the decoded list by (date, time). -/
def load_appointments : Option (Except Unit (List Appointment)) →
    List Appointment × LogLevel
  | none => ([], .warning)
  | some (.error _) => ([], .critical)
  | some (.ok l) => (sortPending l, .info)

/-- load_doctor_records: same degradation policy as the patient store. -/
def load_doctor_records : Option (Except Unit DoctorMap) → DoctorMap × LogLevel
  | none => ([], .warning)
  | some (.error _) => ([], .critical)
  | some (.ok m) => (m, .info)

/-- save_encodings: the pickle blob holds exactly the parallel pair of
encodings and names. -/
def save_encodings (encodings : List Vec) (names : List String) :
    List Vec × List String :=
  (encodings, names)

/-- load_known_faces: an absent file starts fresh with a warning; any
load failure is caught and degrades to the empty parallel pair with a
CRITICAL log; otherwise the stored pair is returned. -/
def load_known_faces : Option (Except Unit (List Vec × List String)) →
    (List Vec × List String) × LogLevel
  | none => (([], []), .warning)
  | some (.error _) => (([], []), .critical)
  | some (.ok p) => (p, .info)

/-- Python str.upper, mapped over the characters (the sentinels compared
against are ASCII). -/
def strUpper (s : String) : String := ⟨s.data.map Char.toUpper⟩

/-- Python str.lower, mapped over the characters. -/
def strLower (s : String) : String := ⟨s.data.map Char.toLower⟩

/-- A BGR color triple for the CV2 rendering. -/
abbrev Color := Nat × Nat × Nat

/-- NEON_GREEN of the recognition loop. -/
def NEON_GREEN_BGR : Color := (0, 255, 0)

/-- CRITICAL_RED_BGR of the recognition loop. -/
def CRITICAL_RED_BGR : Color := (0, 0, 255)

/-- NEON_CYAN of the recognition loop. -/
def NEON_CYAN_BGR : Color := (255, 255, 0)

/-- The default attribute values substituted when no record is shown
(app.py lines 1024-1028). -/
def defaultDetails : PatientDetails :=
  { age := "N/A", gender := "N/A", allergies := "Unknown"
    history := "No record found.", last_visit := "N/A" }

/-- Dictionary lookup in PATIENT_RECORDS. -/
def lookupRecord (records : PatientMap) (name : String) : Option PatientDetails :=
  (records.find? (fun p => p.1 == name)).map (fun p => p.2)

/-- The triage panel details resolution (app.py lines 1021-1028): the
stored record when the name is recognized and present, the defaults
otherwise. -/
def panelDetails (name : String) (records : PatientMap) : PatientDetails :=
  if name ≠ "Unknown" ∧ (lookupRecord records name).isSome then
    (lookupRecord records name).getD defaultDetails
  else defaultDetails

/-- The allergy-alert color (app.py line 1072): escalated to red when the
upper-cased allergies value is not a none sentinel and the identity is
not "Unknown". -/
def allergyAlertColor (name : String) (details : PatientDetails) : Color :=
  if strUpper details.allergies ∉ (["NONE", "N/A"] : List String) ∧ name ≠ "Unknown" then
    CRITICAL_RED_BGR
  else NEON_GREEN_BGR

/-- The bounding-box color of a face (app.py line 1014). -/
def boxColor (name : String) : Color :=
  if name ≠ "Unknown" then NEON_GREEN_BGR else CRITICAL_RED_BGR

/-- The color of the panel identity line (app.py line 1056). -/
def idLabelColor (name : String) : Color :=
  if name ≠ "Unknown" then NEON_CYAN_BGR else CRITICAL_RED_BGR

/-- The appointment resolution of the recognition loop (app.py lines
1031-1034): all records whose patient identifier equals the displayed
name case-insensitively. -/
def appointmentsFor (appts : List Appointment) (name : String) : List Appointment :=
  appts.filter (fun a => strLower a.name == strLower name)

/-- One capture attempt of an enrollment session: whether the two
cap.read calls of the loop body succeed, how many faces the detector
finds in the processed frame, and the embedding of the face region. -/
structure CaptureAttempt where
  read1 : Bool
  read2 : Bool
  numFaces : Nat
  encoding : Vec
  deriving DecidableEq

/-- An attempt contributes an encoding exactly when both reads succeed
and exactly one face is detected. -/
def acceptedCapture (a : CaptureAttempt) : Bool :=
  a.read1 && a.read2 && (a.numFaces == 1)

/-- The capture loop of register_new_user_process, with Python's actual
for-in-range semantics: the loop runs over exactly n attempts (the
i -= 1 statement in the body has no effect, since the loop variable is
reassigned from the range on the next iteration), and each attempt
contributes at most one encoding. -/
def capture_encodings (attempts : List CaptureAttempt) (n : Nat) : List Vec :=
  ((attempts.take n).filter acceptedCapture).map (fun a => a.encoding)

/-- np.mean(vs, axis=0): the element-wise arithmetic mean of a family of
equal-length vectors (the empty family is guarded before this is
reached). -/
def vecMean (vs : List Vec) : Vec :=
  match vs with
  | [] => []
  | v :: _ =>
    (List.range v.length).map (fun j => (vs.map (fun w => w.getD j 0)).sum / (vs.length : ℚ))

/-- The in-memory stores the enrollment mutates: the parallel encoding
and name lists and the patient record mapping. -/
structure Store where
  encodings : List Vec
  names : List String
  records : PatientMap
  deriving DecidableEq

/-- Dictionary assignment PATIENT_RECORDS[name] = data: replace the
entry when the key is present, append it otherwise. -/
def upsertRecord (records : PatientMap) (name : String) (d : PatientDetails) : PatientMap :=
  if (records.find? (fun p => p.1 == name)).isSome then
    records.map (fun p => if p.1 == name then (name, d) else p)
  else records ++ [(name, d)]

/-- The tail of register_new_user_process (app.py lines 915-928): with no
captured encodings the function returns before any mutation; otherwise
the mean encoding and the name are appended to the parallel lists and
the patient record is stored. -/
def register_finalize (st : Store) (name : String) (details : PatientDetails)
    (encs : List Vec) : Store :=
  if encs.isEmpty then st
  else
    { encodings := st.encodings ++ [vecMean encs]
      names := st.names ++ [name]
      records := upsertRecord st.records name details }

/-- register_new_user_process as a whole: run the capture loop over the
attempt outcomes, then finalize. -/
def register_new_user_process (st : Store) (name : String) (details : PatientDetails)
    (attempts : List CaptureAttempt) (n : Nat) : Store :=
  register_finalize st name details (capture_encodings attempts n)

/-- The states the parallel (encodings, names) pair can be in: empty at
first start or after a failed load, reloaded from a blob saved from an
earlier state, or extended by an enrollment. -/
inductive ReachableEnc : List Vec × List String → Prop
  | init : ReachableEnc ([], [])
  | load_failed : ReachableEnc (load_known_faces (some (Except.error ()))).1
  | reload (p : List Vec × List String) (h : ReachableEnc p) :
      ReachableEnc (load_known_faces (some (Except.ok (save_encodings p.1 p.2)))).1
  | enroll (p : List Vec × List String) (records : PatientMap) (name : String)
      (details : PatientDetails) (vs : List Vec) (h : ReachableEnc p) :
      ReachableEnc ((register_finalize ⟨p.1, p.2, records⟩ name details vs).encodings,
        (register_finalize ⟨p.1, p.2, records⟩ name details vs).names)

/-- An operation on the appointment store reachable from the menus. -/
inductive ApptOp
  | book (a : Appointment)
  | cancel (apptId : Int) (confirm : Bool)

/-- Apply one appointment operation. -/
def applyApptOp (l : List Appointment) : ApptOp → List Appointment
  | .book a => add_appointment l a
  | .cancel i c => cancel_appointment l i c

/-- Apply a sequence of appointment operations in order. -/
def applyApptOps (l : List Appointment) (ops : List ApptOp) : List Appointment :=
  ops.foldl applyApptOp l

/-- The ordering invariant: consecutive records compare in (date, time)
order, i.e. the list is sorted ascending. -/
def ApptSorted (l : List Appointment) : Prop :=
  l.Pairwise (fun a b => apptLE a b = true)

/-- The observable resource events of face_recognition_loop. -/
inductive CamEvent
  | openAttempt
  | errorShown
  | frameShown
  | released
  | windowsDestroyed
  deriving DecidableEq

/-- The while loop of face_recognition_loop over a finite frame source:
each entry says whether the operator pressed quit on that frame; when
the source is exhausted cap.read fails and the loop breaks. -/
def recogFrames : List Bool → List CamEvent
  | [] => []
  | quit :: rest => CamEvent.frameShown :: (if quit then [] else recogFrames rest)

/-- The control flow of face_recognition_loop (app.py lines 960-1143):
when the webcam fails to open the function shows an error and returns
early, without a release event; when it opens, the loop runs and
cap.release() and cv2.destroyAllWindows() follow the break. -/
def face_recognition_loop_events (openOk : Bool) (frames : List Bool) : List CamEvent :=
  if openOk then
    CamEvent.openAttempt ::
      (recogFrames frames ++ [CamEvent.released, CamEvent.windowsDestroyed])
  else [CamEvent.openAttempt, CamEvent.errorShown]

/-- One step of the per-face loop of the recognition frame (app.py lines
998-1017): match the face, remember its name as the panel context, and
record the drawn box label. -/
def faceStep (dist : Vec → Vec → ℚ) (encs : List Vec) (names : List String) (tol : ℚ)
    (acc : String × List (String × Color)) (f : Vec) : String × List (String × Color) :=
  let nm := matchFace dist encs names tol f
  (nm, acc.2 ++ [(nm, boxColor nm)])

/-- The rendered data of one frame of the recognition loop. -/
structure FrameOutput where
  labels : List (String × Color)
  panelName : String
  details : PatientDetails
  idColor : Color
  allergyColor : Color
  appointments : List Appointment
  deriving DecidableEq

/-- One frame of the recognition loop: fold the per-face loop over the
detected faces starting from the "Unknown" context, then resolve the
panel data from the final context. -/
def process_frame (dist : Vec → Vec → ℚ) (encs : List Vec) (names : List String)
    (tol : ℚ) (records : PatientMap) (appts : List Appointment)
    (faces : List Vec) : FrameOutput :=
  let st := faces.foldl (faceStep dist encs names tol) ("Unknown", [])
  { labels := st.2
    panelName := st.1
    details := panelDetails st.1 records
    idColor := idLabelColor st.1
    allergyColor := allergyAlertColor st.1 (panelDetails st.1 records)
    appointments := appointmentsFor appts st.1 }

/-- The argmin index of a non-empty list is in bounds. -/
theorem argminIdx_lt_length : ∀ (l : List ℚ), l ≠ [] → argminIdx l < l.length
  | [], h => absurd rfl h
  | [_], _ => by simp [argminIdx]
  | x :: y :: ys, _ => by
    have ih := argminIdx_lt_length (y :: ys) (by simp)
    simp only [argminIdx]
    split
    · simp
    · simpa using Nat.succ_lt_succ ih

/-- The entry at the argmin index is a minimum of the list. -/
theorem argminIdx_le_getD : ∀ (l : List ℚ) (j : Nat), j < l.length →
    l.getD (argminIdx l) 0 ≤ l.getD j 0
  | [], _, h => by simp at h
  | [x], j, h => by
    have hj : j = 0 := by simpa using Nat.lt_one_iff.mp (by simpa using h)
    subst hj
    simp [argminIdx]
  | x :: y :: ys, j, h => by
    simp only [argminIdx]
    split
    case isTrue hle =>
      match j with
      | 0 => simp
      | j + 1 =>
        have ih := argminIdx_le_getD (y :: ys) j (by simpa using h)
        simpa using le_trans hle ih
    case isFalse hgt =>
      match j with
      | 0 => simpa using le_of_lt (lt_of_not_le hgt)
      | j + 1 =>
        have ih := argminIdx_le_getD (y :: ys) j (by simpa using h)
        simpa using ih

/-- Every entry strictly before the argmin index is strictly larger than
the minimum: the argmin is the first position attaining the minimum, as
np.argmin returns. -/
theorem argminIdx_first : ∀ (l : List ℚ) (k : Nat), k < argminIdx l →
    l.getD (argminIdx l) 0 < l.getD k 0
  | [], _, h => by simp [argminIdx] at h
  | [_], _, h => by simp [argminIdx] at h
  | x :: y :: ys, k, h => by
    simp only [argminIdx] at h ⊢
    split
    case isTrue hle =>
      rw [if_pos hle] at h
      omega
    case isFalse hgt =>
      rw [if_neg hgt] at h
      match k with
      | 0 => simpa using lt_of_not_le hgt
      | k + 1 =>
        have hk : k < argminIdx (y :: ys) := by omega
        simpa using argminIdx_first (y :: ys) k hk

/-- getD of a mapped list at an in-bounds index. -/
theorem getD_map_of_lt {α β : Type} (f : α → β) (dA : α) (dB : β) :
    ∀ (l : List α) (i : Nat), i < l.length → (l.map f).getD i dB = f (l.getD i dA)
  | [], _, h => by simp at h
  | _ :: _, 0, _ => rfl
  | _ :: vs, i + 1, h => getD_map_of_lt f dA dB vs i (by simpa using h)

/-- getD at an in-bounds index is a member of the list. -/
theorem getD_mem_of_lt {α : Type} (d : α) :
    ∀ (l : List α) (i : Nat), i < l.length → l.getD i d ∈ l
  | [], _, h => by simp at h
  | _ :: _, 0, _ => by simp
  | _ :: vs, i + 1, h => by
    simpa using Or.inr (getD_mem_of_lt d vs i (by simpa using h))

/-- A member of a list sits at some in-bounds index. -/
theorem exists_getD_of_mem {α : Type} (d : α) :
    ∀ (l : List α) (e : α), e ∈ l → ∃ i, i < l.length ∧ l.getD i d = e
  | [], _, h => by simp at h
  | a :: as, e, h => by
    rcases List.mem_cons.mp h with h0 | hmem
    · exact ⟨0, by simp, by simp [h0.symm]⟩
    · obtain ⟨i, hi, hg⟩ := exists_getD_of_mem d as e hmem
      exact ⟨i + 1, by simpa using hi, by simpa using hg⟩

/-- A comparison in compare_faces succeeds for some encoding exactly when
some stored encoding is within the tolerance of the query. -/
theorem mem_compare_faces_iff (dist : Vec → Vec → ℚ) (encs : List Vec) (q : Vec)
    (tol : ℚ) : true ∈ compare_faces dist encs q tol ↔ ∃ e ∈ encs, dist e q ≤ tol := by
  simp [compare_faces, List.mem_map, eq_comm]

/-- The verdict of claim C7 is read off directly from the load functions. -/
theorem corrupt_load_degrades :
    load_patient_records (some (Except.error ())) = ([], LogLevel.critical) ∧
    load_appointments (some (Except.error ())) = ([], LogLevel.critical) ∧
    load_doctor_records (some (Except.error ())) = ([], LogLevel.critical) ∧
    load_known_faces (some (Except.error ())) = (([], []), LogLevel.critical) :=
  ⟨rfl, rfl, rfl, rfl⟩

/-- C1: for every tolerance and query vector, the per-frame match returns
the "Unknown" sentinel iff no stored vector is within the tolerance of
the query (in particular on the empty store); otherwise it returns the
identifier of a stored vector whose distance is minimal among those
within the tolerance, taking the first-by-storage-order vector on an
exact tie.  The hypotheses are the store invariants: the parallel lists
have equal length and no stored identifier is the sentinel. -/
theorem matching_policy (dist : Vec → Vec → ℚ) (encs : List Vec) (names : List String)
    (tol : ℚ) (q : Vec) (hlen : names.length = encs.length)
    (hunk : ∀ nm ∈ names, nm ≠ "Unknown") :
    (matchFace dist encs names tol q = "Unknown" ↔ ∀ e ∈ encs, ¬ dist e q ≤ tol) ∧
    ((∃ e ∈ encs, dist e q ≤ tol) →
      ∃ i, i < encs.length ∧
        matchFace dist encs names tol q = names.getD i "Unknown" ∧
        dist (encs.getD i []) q ≤ tol ∧
        (∀ j, j < encs.length → dist (encs.getD j []) q ≤ tol →
          dist (encs.getD i []) q ≤ dist (encs.getD j []) q) ∧
        (∀ j, j < i → dist (encs.getD i []) q < dist (encs.getD j []) q)) := by
  have hmain : (∃ e ∈ encs, dist e q ≤ tol) →
      ∃ i, i < encs.length ∧
        matchFace dist encs names tol q = names.getD i "Unknown" ∧
        dist (encs.getD i []) q ≤ tol ∧
        (∀ j, j < encs.length → dist (encs.getD j []) q ≤ tol →
          dist (encs.getD i []) q ≤ dist (encs.getD j []) q) ∧
        (∀ j, j < i → dist (encs.getD i []) q < dist (encs.getD j []) q) := by
    intro hex
    have hne : encs ≠ [] := by
      rcases hex with ⟨e, he, _⟩
      exact fun h0 => by simp [h0] at he
    have hDne : face_distance dist encs q ≠ [] := by
      simp [face_distance, hne]
    have hi0 : argminIdx (face_distance dist encs q) < encs.length := by
      have h1 := argminIdx_lt_length _ hDne
      simpa [face_distance] using h1
    have hmap : ∀ j, j < encs.length →
        (face_distance dist encs q).getD j 0 = dist (encs.getD j []) q := by
      intro j hj
      exact getD_map_of_lt (fun e => dist e q) ([] : Vec) 0 encs j hj
    refine ⟨argminIdx (face_distance dist encs q), hi0, ?_, ?_, ?_, ?_⟩
    · simp [matchFace, hne, mem_compare_faces_iff, hex]
    · rcases hex with ⟨e, hemem, het⟩
      obtain ⟨k, hk, hke⟩ := exists_getD_of_mem ([] : Vec) encs e hemem
      have h1 : (face_distance dist encs q).getD (argminIdx (face_distance dist encs q)) 0
          ≤ (face_distance dist encs q).getD k 0 := by
        apply argminIdx_le_getD
        simpa [face_distance] using hk
      rw [hmap _ hi0] at h1
      rw [hmap _ hk, hke] at h1
      exact le_trans h1 het
    · intro j hj _
      have h1 := argminIdx_le_getD (face_distance dist encs q) j
        (by simpa [face_distance] using hj)
      rw [hmap _ hi0, hmap _ hj] at h1
      exact h1
    · intro j hj
      have h1 := argminIdx_first (face_distance dist encs q) j hj
      rw [hmap _ hi0, hmap _ (lt_trans hj hi0)] at h1
      exact h1
  refine ⟨?_, hmain⟩
  rcases eq_or_ne encs [] with he | hne
  · subst he
    simp [matchFace]
  · by_cases hex : ∃ e ∈ encs, dist e q ≤ tol
    · obtain ⟨i, hi, hval, _, _, _⟩ := hmain hex
      have hmem : names.getD i "Unknown" ∈ names :=
        getD_mem_of_lt "Unknown" names i (by omega)
      refine iff_of_false ?_ ?_
      · rw [hval]
        exact hunk _ hmem
      · intro hall
        rcases hex with ⟨e, hemem, het⟩
        exact hall e hemem het
    · have hval : matchFace dist encs names tol q = "Unknown" := by
        simp [matchFace, hne, mem_compare_faces_iff, hex]
      refine iff_of_true hval ?_
      intro e hemem het
      exact hex ⟨e, hemem, het⟩

/-- getD over List.range at an in-bounds index. -/
theorem getD_range_of_lt (n j : Nat) (h : j < n) : (List.range n).getD j 0 = j := by
  rw [List.getD_eq_getElem?_getD, List.getElem?_range h]
  rfl

/-- C1 witness: on the spec's scenario store holding one vector for
"alice", a query at squared distance 0 from it is matched to "alice",
with all the minimality clauses instantiated. -/
theorem matching_policy_witness :
    ((["alice"] : List String).length = ([[(1 : ℚ), 0, 0]] : List Vec).length ∧
      (∀ nm ∈ (["alice"] : List String), nm ≠ "Unknown") ∧
      (∃ e ∈ ([[(1 : ℚ), 0, 0]] : List Vec), sqDist e [1, 0, 0] ≤ TOLERANCE)) ∧
    (matchFace sqDist [[(1 : ℚ), 0, 0]] ["alice"] TOLERANCE [1, 0, 0] = "Unknown" ↔
      ∀ e ∈ ([[(1 : ℚ), 0, 0]] : List Vec), ¬ sqDist e [1, 0, 0] ≤ TOLERANCE) ∧
    (∃ i, i < ([[(1 : ℚ), 0, 0]] : List Vec).length ∧
      matchFace sqDist [[(1 : ℚ), 0, 0]] ["alice"] TOLERANCE [1, 0, 0]
        = (["alice"] : List String).getD i "Unknown" ∧
      sqDist (([[(1 : ℚ), 0, 0]] : List Vec).getD i []) [1, 0, 0] ≤ TOLERANCE ∧
      (∀ j, j < ([[(1 : ℚ), 0, 0]] : List Vec).length →
        sqDist (([[(1 : ℚ), 0, 0]] : List Vec).getD j []) [1, 0, 0] ≤ TOLERANCE →
        sqDist (([[(1 : ℚ), 0, 0]] : List Vec).getD i []) [1, 0, 0]
          ≤ sqDist (([[(1 : ℚ), 0, 0]] : List Vec).getD j []) [1, 0, 0]) ∧
      (∀ j, j < i →
        sqDist (([[(1 : ℚ), 0, 0]] : List Vec).getD i []) [1, 0, 0]
          < sqDist (([[(1 : ℚ), 0, 0]] : List Vec).getD j []) [1, 0, 0])) := by
  have hlen : (["alice"] : List String).length = ([[(1 : ℚ), 0, 0]] : List Vec).length := rfl
  have hunk : ∀ nm ∈ (["alice"] : List String), nm ≠ "Unknown" := by decide
  have hex : ∃ e ∈ ([[(1 : ℚ), 0, 0]] : List Vec), sqDist e [1, 0, 0] ≤ TOLERANCE :=
    ⟨[1, 0, 0], by simp, by norm_num [sqDist, TOLERANCE]⟩
  have h := matching_policy sqDist [[(1 : ℚ), 0, 0]] ["alice"] TOLERANCE [1, 0, 0] hlen hunk
  exact ⟨⟨hlen, hunk, hex⟩, h.1, h.2 hex⟩

/-- C2: the capture loop of register_new_user_process does not redo a
failed attempt.  Under Python's for-in-range semantics the i -= 1 in the
loop body has no effect (the loop variable is reassigned from the range
on the next iteration), so a session whose first attempt detects zero
faces runs out of slots with only four accepted captures, yet still
proceeds to averaging and enrollment — contradicting the retry intent
stated in the code's own comment and in the spec. -/
theorem capture_slots_consumed_on_failure :
    (capture_encodings
      [⟨true, true, 0, []⟩, ⟨true, true, 1, [1]⟩, ⟨true, true, 1, [1]⟩,
        ⟨true, true, 1, [1]⟩, ⟨true, true, 1, [1]⟩] NUM_REGISTRATION_IMAGES).length = 4 ∧
    4 ≠ NUM_REGISTRATION_IMAGES ∧
    (register_new_user_process ⟨[], [], []⟩ "bob" defaultDetails
      [⟨true, true, 0, []⟩, ⟨true, true, 1, [1]⟩, ⟨true, true, 1, [1]⟩,
        ⟨true, true, 1, [1]⟩, ⟨true, true, 1, [1]⟩] NUM_REGISTRATION_IMAGES).encodings
      ≠ [] := by
  refine ⟨rfl, by decide, ?_⟩
  simp [register_new_user_process, register_finalize, capture_encodings, acceptedCapture,
    NUM_REGISTRATION_IMAGES]

/-- C3: enrolling with a non-empty capture sequence appends exactly one
stored vector, the element-wise arithmetic mean of the captures,
associated with the given identifier; the empty capture sequence leaves
both the encoding store and the patient record store untouched. -/
theorem enroll_appends_mean (st : Store) (name : String) (details : PatientDetails)
    (vs : List Vec) (dim : Nat) (hvs : vs ≠ []) (hdim : ∀ v ∈ vs, v.length = dim) :
    register_finalize st name details [] = st ∧
    (register_finalize st name details vs).encodings = st.encodings ++ [vecMean vs] ∧
    (register_finalize st name details vs).names = st.names ++ [name] ∧
    (register_finalize st name details vs).records = upsertRecord st.records name details ∧
    (vecMean vs).length = dim ∧
    (∀ j, j < dim →
      (vecMean vs).getD j 0 = (vs.map (fun w => w.getD j 0)).sum / (vs.length : ℚ)) := by
  have h0 : vs.isEmpty = false := by simp [hvs]
  obtain ⟨v, rest, rfl⟩ := List.exists_cons_of_ne_nil hvs
  have hv : v.length = dim := hdim v (by simp)
  refine ⟨rfl, by simp [register_finalize, h0], by simp [register_finalize, h0],
    by simp [register_finalize, h0], ?_, ?_⟩
  · simp [vecMean, hv]
  · intro j hj
    have hjr : j < (List.range v.length).length := by simpa [hv] using hj
    have h1 := getD_map_of_lt
      (fun k => ((v :: rest).map (fun w => w.getD k 0)).sum / (((v :: rest).length : ℚ)))
      0 0 (List.range v.length) j hjr
    have h2 : (List.range v.length).getD j 0 = j := getD_range_of_lt v.length j (by omega)
    rw [h2] at h1
    exact h1

/-- C3 witness: the spec scenario enrolling "bob" with captures
[[2,2],[0,0]] into the empty store, with the stored vector evaluating to
the mean [1,1]. -/
theorem enroll_appends_mean_witness :
    (([[(2 : ℚ), 2], [0, 0]] : List Vec) ≠ [] ∧
      (∀ v ∈ ([[(2 : ℚ), 2], [0, 0]] : List Vec), v.length = 2)) ∧
    (register_finalize ⟨[], [], []⟩ "bob" defaultDetails [] = ⟨[], [], []⟩ ∧
      (register_finalize ⟨[], [], []⟩ "bob" defaultDetails [[(2 : ℚ), 2], [0, 0]]).encodings
        = [] ++ [vecMean [[(2 : ℚ), 2], [0, 0]]] ∧
      (register_finalize ⟨[], [], []⟩ "bob" defaultDetails [[(2 : ℚ), 2], [0, 0]]).names
        = [] ++ ["bob"] ∧
      (register_finalize ⟨[], [], []⟩ "bob" defaultDetails [[(2 : ℚ), 2], [0, 0]]).records
        = upsertRecord [] "bob" defaultDetails ∧
      (vecMean [[(2 : ℚ), 2], [0, 0]]).length = 2 ∧
      (∀ j, j < 2 →
        (vecMean [[(2 : ℚ), 2], [0, 0]]).getD j 0
          = (([[(2 : ℚ), 2], [0, 0]] : List Vec).map (fun w => w.getD j 0)).sum
            / (([[(2 : ℚ), 2], [0, 0]] : List Vec).length : ℚ))) ∧
    vecMean [[(2 : ℚ), 2], [0, 0]] = [1, 1] := by
  have hvs : ([[(2 : ℚ), 2], [0, 0]] : List Vec) ≠ [] := by simp
  have hdim : ∀ v ∈ ([[(2 : ℚ), 2], [0, 0]] : List Vec), v.length = 2 := by
    intro v hv
    rcases List.mem_cons.mp hv with h | h
    · rw [h]; rfl
    · rcases List.mem_cons.mp h with h2 | h2
      · rw [h2]; rfl
      · simp at h2
  refine ⟨⟨hvs, hdim⟩,
    enroll_appends_mean ⟨[], [], []⟩ "bob" defaultDetails [[(2 : ℚ), 2], [0, 0]] 2 hvs hdim,
    ?_⟩
  norm_num [vecMean, List.range_succ]

/-- C4 counterexample: with an empty record store, the matched identifier
"bob" and the unmatched "Unknown" identity receive the same substituted
default attributes, yet the allergy alert escalates to red for "bob"
and stays green for "Unknown", so the rendered panel is not the same. -/
theorem matched_without_record_alert_differs :
    panelDetails "bob" [] = panelDetails "Unknown" [] ∧
    allergyAlertColor "bob" (panelDetails "bob" []) = CRITICAL_RED_BGR ∧
    allergyAlertColor "Unknown" (panelDetails "Unknown" []) = NEON_GREEN_BGR ∧
    allergyAlertColor "bob" (panelDetails "bob" [])
      ≠ allergyAlertColor "Unknown" (panelDetails "Unknown" []) := by
  refine ⟨rfl, ?_, ?_, ?_⟩ <;> decide

/-- C4 (amended): a matched identifier with no patient record gets the
same substituted default attribute values as the "Unknown" identity, but
the rendered panel is not identical: the default allergies value
"Unknown" is not a none sentinel, so the allergy alert escalates to red
for the matched record-less identifier while staying green for an
unrecognized face. -/
theorem matched_without_record_defaults (records : PatientMap) (name : String)
    (h1 : name ≠ "Unknown") (h2 : lookupRecord records name = none) :
    panelDetails name records = defaultDetails ∧
    panelDetails "Unknown" records = defaultDetails ∧
    allergyAlertColor name (panelDetails name records) = CRITICAL_RED_BGR ∧
    allergyAlertColor "Unknown" (panelDetails "Unknown" records) = NEON_GREEN_BGR := by
  have hp1 : panelDetails name records = defaultDetails := by
    simp [panelDetails, h2]
  have hp2 : panelDetails "Unknown" records = defaultDetails := by
    simp [panelDetails]
  have hup : strUpper defaultDetails.allergies ∉ (["NONE", "N/A"] : List String) := by decide
  refine ⟨hp1, hp2, ?_, ?_⟩
  · rw [hp1]
    simp [allergyAlertColor, hup, h1]
  · rw [hp2]
    simp [allergyAlertColor]

/-- C4 witness for the amended claim, at the concrete matched identifier
"bob" and the empty record store. -/
theorem matched_without_record_defaults_witness :
    (("bob" : String) ≠ "Unknown" ∧ lookupRecord [] "bob" = none) ∧
    (panelDetails "bob" [] = defaultDetails ∧
      panelDetails "Unknown" [] = defaultDetails ∧
      allergyAlertColor "bob" (panelDetails "bob" []) = CRITICAL_RED_BGR ∧
      allergyAlertColor "Unknown" (panelDetails "Unknown" []) = NEON_GREEN_BGR) :=
  ⟨⟨by decide, rfl⟩, matched_without_record_defaults [] "bob" (by decide) rfl⟩

/-- The (date, time) comparison is total. -/
theorem apptLE_total (a b : Appointment) : apptLE a b = true ∨ apptLE b a = true := by
  simp only [apptLE, Bool.or_eq_true, Bool.and_eq_true, decide_eq_true_eq]
  rcases lt_trichotomy a.date b.date with h | h | h
  · exact Or.inl (Or.inl h)
  · rcases le_total a.time b.time with ht | ht
    · exact Or.inl (Or.inr ⟨h, ht⟩)
    · exact Or.inr (Or.inr ⟨h.symm, ht⟩)
  · exact Or.inr (Or.inl h)

/-- The (date, time) comparison is transitive. -/
theorem apptLE_trans (a b c : Appointment) (h1 : apptLE a b = true) (h2 : apptLE b c = true) :
    apptLE a c = true := by
  simp only [apptLE, Bool.or_eq_true, Bool.and_eq_true, decide_eq_true_eq] at h1 h2 ⊢
  rcases h1 with h1 | ⟨h1d, h1t⟩
  · rcases h2 with h2 | ⟨h2d, h2t⟩
    · exact Or.inl (lt_trans h1 h2)
    · exact Or.inl (lt_of_lt_of_le h1 (le_of_eq h2d))
  · rcases h2 with h2 | ⟨h2d, h2t⟩
    · exact Or.inl (lt_of_le_of_lt (le_of_eq h1d) h2)
    · exact Or.inr ⟨h1d.trans h2d, le_trans h1t h2t⟩

/-- Sorting the appointment list establishes the ordering invariant. -/
theorem sortPending_sorted (l : List Appointment) : ApptSorted (sortPending l) := by
  have h := @List.sorted_mergeSort Appointment apptLE
    (fun a b c h1 h2 => apptLE_trans a b c h1 h2)
    (fun a b => by
      rcases apptLE_total a b with h | h <;> simp [h])
    l
  exact h

/-- Deleting at an index preserves the ordering invariant. -/
theorem cancel_preserves_sorted (l : List Appointment) (i : Int) (c : Bool)
    (h : ApptSorted l) : ApptSorted (cancel_appointment l i c) := by
  by_cases h1 : i < 1 ∨ (l.length : Int) ≤ i - 1
  · simpa [cancel_appointment, h1] using h
  · cases c with
    | false => simpa [cancel_appointment, h1] using h
    | true =>
      have h2 : cancel_appointment l i true = l.eraseIdx (i.toNat - 1) := by
        simp [cancel_appointment, h1]
      rw [ApptSorted, h2]
      exact List.Pairwise.sublist (List.eraseIdx_sublist l (i.toNat - 1)) h

/-- C5: starting from a loaded collection, the appointment list remains
sorted by (date, time) ascending after every sequence of bookings and
index-based cancellations. -/
theorem appointments_stay_sorted (inp : Option (Except Unit (List Appointment)))
    (ops : List ApptOp) : ApptSorted (applyApptOps (load_appointments inp).1 ops) := by
  have hstep : ∀ (ops2 : List ApptOp) (l : List Appointment), ApptSorted l →
      ApptSorted (applyApptOps l ops2) := by
    intro ops2
    induction ops2 with
    | nil => intro l hl; exact hl
    | cons op rest ih =>
      intro l hl
      have h1 : ApptSorted (applyApptOp l op) := by
        cases op with
        | book a => exact sortPending_sorted (l ++ [a])
        | cancel i c => exact cancel_preserves_sorted l i c hl
      exact ih (applyApptOp l op) h1
  apply hstep
  match inp with
  | none => exact List.Pairwise.nil
  | some (.error _) => exact List.Pairwise.nil
  | some (.ok l0) => exact sortPending_sorted l0

/-- C6: cancelling by a 1-based displayed id in [1, length] removes
exactly the record at that position of the current collection, leaving
every other record in place; any id that is ≤ 0 or greater than the
current length is rejected without mutating the collection. -/
theorem cancel_removes_exact_position (l : List Appointment) (i : Int)
    (h1 : 1 ≤ i) (h2 : i ≤ (l.length : Int)) :
    cancel_appointment l i true = l.take (i.toNat - 1) ++ l.drop i.toNat ∧
    (cancel_appointment l i true).length + 1 = l.length ∧
    (∀ i2 : Int, i2 ≤ 0 ∨ (l.length : Int) < i2 → ∀ c : Bool,
      cancel_appointment l i2 c = l) := by
  have heq : cancel_appointment l i true = l.eraseIdx (i.toNat - 1) := by
    have hc : ¬(i < 1 ∨ (l.length : Int) ≤ i - 1) := by omega
    simp [cancel_appointment, hc]
  have hlt : i.toNat - 1 < l.length := by omega
  refine ⟨?_, ?_, ?_⟩
  · rw [heq, List.eraseIdx_eq_take_drop_succ]
    have hsucc : i.toNat - 1 + 1 = i.toNat := by omega
    rw [hsucc]
  · rw [heq]
    have := List.length_eraseIdx_of_lt hlt
    omega
  · intro i2 hi2 c
    have hc2 : i2 < 1 ∨ (l.length : Int) ≤ i2 - 1 := by omega
    simp [cancel_appointment, hc2]

/-- C6 witness: the spec scenario cancelling id 1 from a two-record
collection removes exactly the first record and leaves one. -/
theorem cancel_removes_exact_position_witness :
    ((1 : Int) ≤ 1 ∧
      (1 : Int) ≤ (([⟨"alice", "2025-02-01", "10:00", "checkup", "drx"⟩,
        ⟨"alice", "2025-03-01", "09:00", "checkup", "drx"⟩] : List Appointment).length : Int)) ∧
    (cancel_appointment [⟨"alice", "2025-02-01", "10:00", "checkup", "drx"⟩,
        ⟨"alice", "2025-03-01", "09:00", "checkup", "drx"⟩] 1 true
      = ([⟨"alice", "2025-02-01", "10:00", "checkup", "drx"⟩,
          ⟨"alice", "2025-03-01", "09:00", "checkup", "drx"⟩] : List Appointment).take
            ((1 : Int).toNat - 1)
        ++ ([⟨"alice", "2025-02-01", "10:00", "checkup", "drx"⟩,
            ⟨"alice", "2025-03-01", "09:00", "checkup", "drx"⟩] : List Appointment).drop
              (1 : Int).toNat ∧
      (cancel_appointment [⟨"alice", "2025-02-01", "10:00", "checkup", "drx"⟩,
          ⟨"alice", "2025-03-01", "09:00", "checkup", "drx"⟩] 1 true).length + 1
        = ([⟨"alice", "2025-02-01", "10:00", "checkup", "drx"⟩,
            ⟨"alice", "2025-03-01", "09:00", "checkup", "drx"⟩] : List Appointment).length ∧
      (∀ i2 : Int,
        i2 ≤ 0 ∨ (([⟨"alice", "2025-02-01", "10:00", "checkup", "drx"⟩,
          ⟨"alice", "2025-03-01", "09:00", "checkup", "drx"⟩] : List Appointment).length : Int)
            < i2 →
        ∀ c : Bool,
          cancel_appointment [⟨"alice", "2025-02-01", "10:00", "checkup", "drx"⟩,
            ⟨"alice", "2025-03-01", "09:00", "checkup", "drx"⟩] i2 c
          = [⟨"alice", "2025-02-01", "10:00", "checkup", "drx"⟩,
             ⟨"alice", "2025-03-01", "09:00", "checkup", "drx"⟩])) :=
  ⟨⟨by decide, by decide⟩,
    cancel_removes_exact_position
      [⟨"alice", "2025-02-01", "10:00", "checkup", "drx"⟩,
        ⟨"alice", "2025-03-01", "09:00", "checkup", "drx"⟩] 1 (by decide) (by decide)⟩

/-- The per-face loop accumulates one drawn label per face, each computed
from that face's own match. -/
theorem faceFold_labels (dist : Vec → Vec → ℚ) (encs : List Vec) (names : List String)
    (tol : ℚ) : ∀ (faces : List Vec) (nm0 : String) (acc : List (String × Color)),
    (faces.foldl (faceStep dist encs names tol) (nm0, acc)).2
      = acc ++ faces.map (fun f => (matchFace dist encs names tol f,
          boxColor (matchFace dist encs names tol f)))
  | [], nm0, acc => by simp
  | f :: fs, nm0, acc => by
    simp only [List.foldl_cons, faceStep]
    rw [faceFold_labels dist encs names tol fs (matchFace dist encs names tol f)
      (acc ++ [(matchFace dist encs names tol f,
        boxColor (matchFace dist encs names tol f))])]
    simp

/-- The panel context after the per-face loop is the match of the last
face (the initial "Unknown" when no face was detected). -/
theorem faceFold_context (dist : Vec → Vec → ℚ) (encs : List Vec) (names : List String)
    (tol : ℚ) : ∀ (faces : List Vec) (nm0 : String) (acc : List (String × Color)),
    (faces.foldl (faceStep dist encs names tol) (nm0, acc)).1
      = (faces.map (matchFace dist encs names tol)).getLastD nm0
  | [], nm0, acc => by simp
  | f :: fs, nm0, acc => by
    simp only [List.foldl_cons, faceStep, List.map_cons, List.getLastD_cons]
    exact faceFold_context dist encs names tol fs (matchFace dist encs names tol f)
      (acc ++ [(matchFace dist encs names tol f,
        boxColor (matchFace dist encs names tol f))])

/-- getLastD commutes with map when the default is also mapped. -/
theorem getLastD_map_eq (m : Vec → String) :
    ∀ (l : List Vec) (d : Vec), (l.map m).getLastD (m d) = m (l.getLastD d)
  | [], d => by simp
  | v :: vs, d => by
    simp only [List.map_cons, List.getLastD_cons]
    exact getLastD_map_eq m vs v

/-- getLastD commutes with map on a non-empty list, for any defaults. -/
theorem getLastD_map_ne_nil (m : Vec → String) (l : List Vec) (h : l ≠ [])
    (d : String) (dv : Vec) : (l.map m).getLastD d = m (l.getLastD dv) := by
  obtain ⟨v, vs, rfl⟩ := List.exists_cons_of_ne_nil h
  simp only [List.map_cons, List.getLastD_cons]
  exact getLastD_map_eq m vs v

/-- C8: when more than one face is detected in a frame, the triage
panel's identity, attributes, alert color, and appointment list are
those resolved for the last face in detection order (last-writer-wins),
while each face's own drawn box label still comes from its own match. -/
theorem last_face_wins (dist : Vec → Vec → ℚ) (encs : List Vec) (names : List String)
    (tol : ℚ) (records : PatientMap) (appts : List Appointment) (faces : List Vec)
    (hfaces : 2 ≤ faces.length) :
    (process_frame dist encs names tol records appts faces).panelName
      = matchFace dist encs names tol (faces.getLastD []) ∧
    (process_frame dist encs names tol records appts faces).details
      = panelDetails (matchFace dist encs names tol (faces.getLastD [])) records ∧
    (process_frame dist encs names tol records appts faces).allergyColor
      = allergyAlertColor (matchFace dist encs names tol (faces.getLastD []))
          (panelDetails (matchFace dist encs names tol (faces.getLastD [])) records) ∧
    (process_frame dist encs names tol records appts faces).appointments
      = appointmentsFor appts (matchFace dist encs names tol (faces.getLastD [])) ∧
    (process_frame dist encs names tol records appts faces).labels
      = faces.map (fun f => (matchFace dist encs names tol f,
          boxColor (matchFace dist encs names tol f))) := by
  have hne : faces ≠ [] := by
    intro h0
    rw [h0] at hfaces
    simp at hfaces
  have hctx : (faces.foldl (faceStep dist encs names tol) ("Unknown", [])).1
      = matchFace dist encs names tol (faces.getLastD []) := by
    rw [faceFold_context dist encs names tol faces "Unknown" []]
    exact getLastD_map_ne_nil (matchFace dist encs names tol) faces hne "Unknown" []
  have hlab := faceFold_labels dist encs names tol faces "Unknown" []
  refine ⟨?_, ?_, ?_, ?_, ?_⟩ <;> simp [process_frame, hctx, hlab]

/-- C8 witness: a frame with two faces over a two-patient store; the
second face sits at distance 0 from the second stored vector. -/
theorem last_face_wins_witness :
    2 ≤ ([[(0 : ℚ)], [10]] : List Vec).length ∧
    ((process_frame sqDist [[(0 : ℚ)], [10]] ["alice", "bob"] 1 [] []
        [[(0 : ℚ)], [10]]).panelName
      = matchFace sqDist [[(0 : ℚ)], [10]] ["alice", "bob"] 1
          (([[(0 : ℚ)], [10]] : List Vec).getLastD []) ∧
    (process_frame sqDist [[(0 : ℚ)], [10]] ["alice", "bob"] 1 [] []
        [[(0 : ℚ)], [10]]).details
      = panelDetails (matchFace sqDist [[(0 : ℚ)], [10]] ["alice", "bob"] 1
          (([[(0 : ℚ)], [10]] : List Vec).getLastD [])) [] ∧
    (process_frame sqDist [[(0 : ℚ)], [10]] ["alice", "bob"] 1 [] []
        [[(0 : ℚ)], [10]]).allergyColor
      = allergyAlertColor (matchFace sqDist [[(0 : ℚ)], [10]] ["alice", "bob"] 1
          (([[(0 : ℚ)], [10]] : List Vec).getLastD []))
          (panelDetails (matchFace sqDist [[(0 : ℚ)], [10]] ["alice", "bob"] 1
            (([[(0 : ℚ)], [10]] : List Vec).getLastD [])) []) ∧
    (process_frame sqDist [[(0 : ℚ)], [10]] ["alice", "bob"] 1 [] []
        [[(0 : ℚ)], [10]]).appointments
      = appointmentsFor [] (matchFace sqDist [[(0 : ℚ)], [10]] ["alice", "bob"] 1
          (([[(0 : ℚ)], [10]] : List Vec).getLastD [])) ∧
    (process_frame sqDist [[(0 : ℚ)], [10]] ["alice", "bob"] 1 [] []
        [[(0 : ℚ)], [10]]).labels
      = ([[(0 : ℚ)], [10]] : List Vec).map
          (fun f => (matchFace sqDist [[(0 : ℚ)], [10]] ["alice", "bob"] 1 f,
            boxColor (matchFace sqDist [[(0 : ℚ)], [10]] ["alice", "bob"] 1 f)))) :=
  ⟨by decide,
    last_face_wins sqDist [[(0 : ℚ)], [10]] ["alice", "bob"] 1 [] []
      [[(0 : ℚ)], [10]] (by decide)⟩

/-- C9 counterexample: when the webcam fails to open, the recognition
flow shows an error and returns early with no release event — the
camera handle is not released on this exit path, so release is not
unconditional on every exit path. -/
theorem camera_release_counterexample :
    CamEvent.released ∉ face_recognition_loop_events false [] := by decide

/-- C9 (amended): when the webcam opens, the recognition loop emits a
release on every exit of the capture loop (operator quit or read
failure alike); when the open fails, the early-return path emits no
release. -/
theorem camera_release_on_loop_exit (openOk : Bool) (frames : List Bool) :
    (openOk = true → CamEvent.released ∈ face_recognition_loop_events openOk frames) ∧
    (openOk = false → CamEvent.released ∉ face_recognition_loop_events openOk frames) := by
  constructor
  · intro h
    subst h
    simp [face_recognition_loop_events]
  · intro h
    subst h
    simp [face_recognition_loop_events]

/-- C9 witness for the amended claim: a session whose second frame
carries the quit signal releases the camera; a failed open does not. -/
theorem camera_release_on_loop_exit_witness :
    (true = true ∧ CamEvent.released ∈ face_recognition_loop_events true [false, true]) ∧
    (false = false ∧ CamEvent.released ∉ face_recognition_loop_events false []) :=
  ⟨⟨rfl, (camera_release_on_loop_exit true [false, true]).1 rfl⟩,
    ⟨rfl, (camera_release_on_loop_exit false []).2 rfl⟩⟩

/-- C10: in every reachable state of the parallel (encodings, names)
store — fresh, degraded after a failed load, reloaded from a blob saved
from an earlier state, or extended by enrollments — the two lists have
equal length, so the recognition loop's name lookup at the argmin over
the distances is always in bounds. -/
theorem parallel_store_invariant (p : List Vec × List String) (h : ReachableEnc p)
    (dist : Vec → Vec → ℚ) (q : Vec) :
    p.1.length = p.2.length ∧
    (p.1 ≠ [] → argminIdx (face_distance dist p.1 q) < p.2.length) := by
  have hlen : p.1.length = p.2.length := by
    induction h with
    | init => rfl
    | load_failed => rfl
    | reload p2 hp ih => simpa [load_known_faces, save_encodings] using ih
    | enroll p2 records name details vs hp ih =>
      by_cases hv : vs.isEmpty
      · simpa [register_finalize, hv] using ih
      · simp [register_finalize, hv]
        omega
  refine ⟨hlen, ?_⟩
  intro hne
  have h1 := argminIdx_lt_length (face_distance dist p.1 q) (by simp [face_distance, hne])
  have h2 : argminIdx (face_distance dist p.1 q) < p.1.length := by
    simpa [face_distance] using h1
  omega

/-- C10 witness: the reachable state after enrolling "alice" from the
fresh store, with the argmin lookup in bounds. -/
theorem parallel_store_invariant_witness :
    ReachableEnc (([[]], ["alice"]) : List Vec × List String) ∧
    ([([] : Vec)] : List Vec).length = (["alice"] : List String).length ∧
    argminIdx (face_distance sqDist [([] : Vec)] []) < (["alice"] : List String).length := by
  have hr : ReachableEnc (([[]], ["alice"]) : List Vec × List String) := by
    have h := ReachableEnc.enroll ([], []) [] "alice" defaultDetails [[]] ReachableEnc.init
    exact h
  have h2 := parallel_store_invariant ([[]], ["alice"]) hr sqDist []
  exact ⟨hr, h2.1, h2.2 (by simp)⟩

end ITS
